import Mathlib

/-!
Verification of the K8s notification source of the gateway-api-inference-extension
data layer (`K8sNotificationSource` and its collaborators).

The Go code is embedded shallowly:
* `sync.Map` (keyed by extractor name) becomes an association list
  `List (String × ExtractorVal)`; `LoadOrStore` is insert-if-absent, `Range`
  is in-order traversal.
* Go interface values of static type `fwkdl.Extractor` become the inductive
  `ExtractorVal`: the `nil` interface, a value implementing only the base
  `Extractor` capability, or a value implementing `NotificationExtractor`.
* Methods that mutate the receiver are state passing: they return the new
  source together with the Go return value.
* `Notify` returns no value in Go; its observable behaviour is captured by a
  `NotifyResult` effect record: the `ExtractNotification` invocations in
  dispatch order, the collected errors, and the logged aggregate.
-/

set_option autoImplicit false

namespace GAIE

/-- Modelled from the spec: `fwkplugin.TypedName` (its definition is outside the
reviewed core) — identity of a plugin instance, a `{Type, Name}` pair of strings. -/
structure TypedName where
  type : String
  name : String
deriving DecidableEq, Repr

/-- Modelled from the spec: `TypedName` is rendered as a single stable string for
logging / equality, read as the "<Type>/<Name>" rendering. -/
def TypedName.render (tn : TypedName) : String :=
  tn.type ++ "/" ++ tn.name

/-- Embeds `k8s.io/apimachinery` `schema.GroupVersionKind`. -/
structure GroupVersionKind where
  group : String
  version : String
  kind : String
deriving DecidableEq, Repr

/-- Embeds `*unstructured.Unstructured` (an opaque structured document; the claims
never inspect its contents). `none` is the nil pointer. -/
structure Unstructured where
  content : List (String × String)
deriving DecidableEq, Repr

/-- Embeds `datalayer.EventType`: `EventAddOrUpdate` and `EventDelete`, exhaustive. -/
inductive EventType where
  | EventAddOrUpdate
  | EventDelete
deriving DecidableEq, Repr

/-- Embeds `datalayer.NotificationEvent`: event type plus the (deep-copied) object. -/
structure NotificationEvent where
  type : EventType
  object : Option Unstructured
deriving DecidableEq, Repr

/-- Embeds `context.Context` by its cancellation state. The dispatch code under
review only forwards the context to extractors (`log.FromContext` does not
consult cancellation), so this is the only observable the claims need. -/
structure Ctx where
  cancelled : Bool
deriving DecidableEq, Repr

/-- Modelled from the spec: `fwkdl.Endpoint` (defined outside the reviewed core),
the poll target handed to `Collect`; opaque here. -/
structure Endpoint where
  id : String
deriving DecidableEq, Repr

/-- Embeds a concrete plugin implementing `fwkdl.NotificationExtractor`: it
exposes a `TypedName` and an `ExtractNotification(ctx, event) -> error`
behaviour (`some msg` is a non-nil Go error, `none` is nil). -/
structure NotificationExtractor where
  typedName : TypedName
  extractNotification : Ctx → NotificationEvent → Option String

/-- A Go interface value of static type `fwkdl.Extractor` as received by
`AddExtractor`: the nil interface, a plugin implementing only the base
`Extractor` capability (modelled from the spec: the base capability only
exposes a `TypedName`), or a plugin implementing `NotificationExtractor`. -/
inductive ExtractorVal where
  | nilExt : ExtractorVal
  | base : TypedName → ExtractorVal
  | notif : NotificationExtractor → ExtractorVal

/-- The type assertion `val.(fwkdl.NotificationExtractor)` succeeds exactly on
`notif` values. -/
def ExtractorVal.isNotif : ExtractorVal → Bool
  | ExtractorVal.notif _ => true
  | _ => false

/-- The errors `AddExtractor` can return, each constructor carrying exactly the
data its `fmt.Errorf` format string interpolates. -/
inductive AddError where
  | nilExtractor : AddError
  | capabilityMismatch : TypedName → AddError
  | duplicate : TypedName → TypedName → AddError
deriving DecidableEq, Repr

/-- The error strings produced by `errors.New` / `fmt.Errorf` in `AddExtractor`
(with `TypedName` rendered via `TypedName.render`). -/
def AddError.render : AddError → String
  | AddError.nilExtractor => "cannot add nil extractor"
  | AddError.capabilityMismatch plugin =>
      "extractor " ++ plugin.render ++ " does not implement NotificationExtractor"
  | AddError.duplicate plugin source =>
      "duplicate extractor " ++ plugin.render ++ " on notification source " ++ source.render

/-- Embeds `K8sNotificationSource`: typed name, watched GVK, and the extractor
map (`sync.Map` keyed by extractor name, values stored as `any`). -/
structure K8sNotificationSource where
  typedName : TypedName
  gvk : GroupVersionKind
  extractors : List (String × ExtractorVal)

/-- Embeds `NewK8sNotificationSource`: fresh source with an empty extractor map. -/
def NewK8sNotificationSource (pluginType pluginName : String)
    (gvk : GroupVersionKind) : K8sNotificationSource :=
  { typedName := { type := pluginType, name := pluginName }
    gvk := gvk
    extractors := [] }

/-- Key membership in the extractor map (the `loaded` result of `LoadOrStore`). -/
def containsKey (k : String) : List (String × ExtractorVal) → Bool
  | [] => false
  | kv :: rest => kv.1 == k || containsKey k rest

/-- Embeds `K8sNotificationSource.AddExtractor`: nil check, capability type
assertion, then `LoadOrStore` keyed by `nExt.TypedName().Name`. Returns the
updated source (the mutated receiver) and the Go error value. -/
def K8sNotificationSource.AddExtractor (s : K8sNotificationSource)
    (ext : ExtractorVal) : K8sNotificationSource × Option AddError :=
  match ext with
  | ExtractorVal.nilExt => (s, some AddError.nilExtractor)
  | ExtractorVal.base tn => (s, some (AddError.capabilityMismatch tn))
  | ExtractorVal.notif nExt =>
      if containsKey nExt.typedName.name s.extractors then
        (s, some (AddError.duplicate nExt.typedName s.typedName))
      else
        ({ s with extractors :=
            s.extractors ++ [(nExt.typedName.name, ExtractorVal.notif nExt)] }, none)

/-- Embeds `K8sNotificationSource.Collect`: a no-op returning nil. -/
def K8sNotificationSource.Collect (s : K8sNotificationSource)
    (_ctx : Ctx) (_target : Endpoint) : K8sNotificationSource × Option String :=
  (s, none)

/-- The `Range` loop of `Extractors`: type-assert each stored value to
`NotificationExtractor` and collect `ext.TypedName().String()`. -/
def extractorNames : List (String × ExtractorVal) → List String
  | [] => []
  | (_, ExtractorVal.notif ext) :: rest => ext.typedName.render :: extractorNames rest
  | _ :: rest => extractorNames rest

/-- Embeds `K8sNotificationSource.Extractors`. -/
def K8sNotificationSource.Extractors (s : K8sNotificationSource) : List String :=
  extractorNames s.extractors

/-- The `Range` loop of `Notify` over the stored entries: type-assert, invoke
`ExtractNotification(ctx, event)`, collect wrapped errors. Returns the
invocations (map key of the invoked extractor, event) in order, and the
collected error strings in order. -/
def dispatch (ctx : Ctx) (event : NotificationEvent) :
    List (String × ExtractorVal) → List (String × NotificationEvent) × List String
  | [] => ([], [])
  | (k, v) :: rest =>
      match v with
      | ExtractorVal.notif ext =>
          let tail := dispatch ctx event rest
          match ext.extractNotification ctx event with
          | some msg =>
              ((k, event) :: tail.1,
               ("extractor " ++ ext.typedName.render ++ ": " ++ msg) :: tail.2)
          | none => ((k, event) :: tail.1, tail.2)
      | _ => dispatch ctx event rest

/-- Observable behaviour of one `Notify` call. The Go method is `void`: there is
no field for a caller-visible return value or error — `calls` are the
`ExtractNotification` invocations, `errs` the collected extractor errors, and
`logged` the aggregate handed to `logger.Error` (only when `errs` is nonempty). -/
structure NotifyResult where
  calls : List (String × NotificationEvent)
  errs : List String
  logged : Option (List String)
deriving DecidableEq, Repr

/-- Embeds `K8sNotificationSource.Notify`: range over the extractor map,
dispatch synchronously, and log the joined errors when any occurred. The
receiver state is read-only here: `Notify` never mutates the map. -/
def K8sNotificationSource.Notify (s : K8sNotificationSource) (ctx : Ctx)
    (event : NotificationEvent) : NotifyResult :=
  let r := dispatch ctx event s.extractors
  { calls := r.1
    errs := r.2
    logged := if r.2.length > 0 then some r.2 else none }

/-- A sequence of `Notify` calls, e1 … eN in order; the concatenated invocation
trace (state is unchanged across calls, since `Notify` does not mutate). -/
def notifySeq (s : K8sNotificationSource) (ctx : Ctx) :
    List NotificationEvent → List (String × NotificationEvent)
  | [] => []
  | e :: rest => (s.Notify ctx e).calls ++ notifySeq s ctx rest

/-- The events a given registered extractor (identified by its map key)
observes, in order, in an invocation trace. -/
def eventsSeenBy (k : String) (calls : List (String × NotificationEvent)) :
    List NotificationEvent :=
  calls.filterMap (fun c => if c.1 = k then some c.2 else none)

/-- The operations a client can perform on a source. -/
inductive Op where
  | add : ExtractorVal → Op
  | notify : Ctx → NotificationEvent → Op
  | collect : Ctx → Endpoint → Op

/-- Runs a sequence of operations, threading the source state (`Notify` reads
but never mutates the extractor map). -/
def runOps (s : K8sNotificationSource) : List Op → K8sNotificationSource
  | [] => s
  | Op.add ext :: rest => runOps (s.AddExtractor ext).1 rest
  | Op.notify _ _ :: rest => runOps s rest
  | Op.collect c t :: rest => runOps (s.Collect c t).1 rest

/-! ### Helper lemmas about the dispatch loop and the extractor map -/

/-- The invocation trace of one dispatch pass: one call per stored value passing
the type assertion, keyed by its map key, independent of the extractors'
results. -/
theorem dispatch_calls (ctx : Ctx) (event : NotificationEvent) :
    ∀ l : List (String × ExtractorVal),
      (dispatch ctx event l).1
        = l.filterMap (fun kv => match kv.2 with
            | ExtractorVal.notif _ => some (kv.1, event)
            | _ => none)
  | [] => rfl
  | (k, v) :: rest => by
      cases v with
      | nilExt => simpa [dispatch] using dispatch_calls ctx event rest
      | base tn => simpa [dispatch] using dispatch_calls ctx event rest
      | notif ext =>
          cases hx : ext.extractNotification ctx event <;>
            simp [dispatch, hx, dispatch_calls ctx event rest]

/-- A registered value passing the type assertion is invoked by the dispatch pass. -/
theorem mem_dispatch_calls (ctx : Ctx) (event : NotificationEvent)
    (l : List (String × ExtractorVal)) (k : String) (ne : NotificationExtractor)
    (h : (k, ExtractorVal.notif ne) ∈ l) :
    (k, event) ∈ (dispatch ctx event l).1 := by
  rw [dispatch_calls]
  exact List.mem_filterMap.mpr ⟨(k, ExtractorVal.notif ne), h, rfl⟩

/-- Every call in the trace is keyed by a key of the map. -/
theorem dispatch_calls_key_mem (ctx : Ctx) (event : NotificationEvent)
    (l : List (String × ExtractorVal)) (c : String × NotificationEvent)
    (h : c ∈ (dispatch ctx event l).1) : c.1 ∈ l.map Prod.fst := by
  rw [dispatch_calls] at h
  obtain ⟨⟨k, v⟩, hkv, heq⟩ := List.mem_filterMap.mp h
  cases v with
  | nilExt => simp at heq
  | base tn => simp at heq
  | notif ext =>
      have hc : c = (k, event) := by simpa using heq.symm
      subst hc
      exact List.mem_map.mpr ⟨(k, ExtractorVal.notif ext), hkv, rfl⟩

/-- Dispatch over an entry passing the type assertion records its call up front. -/
theorem dispatch_cons_notif (ctx : Ctx) (event : NotificationEvent) (k : String)
    (ext : NotificationExtractor) (rest : List (String × ExtractorVal)) :
    (dispatch ctx event ((k, ExtractorVal.notif ext) :: rest)).1
      = (k, event) :: (dispatch ctx event rest).1 := by
  cases hx : ext.extractNotification ctx event <;> simp [dispatch, hx]

/-- `eventsSeenBy` over a cons cell. -/
theorem eventsSeenBy_cons (k k' : String) (e : NotificationEvent)
    (calls : List (String × NotificationEvent)) :
    eventsSeenBy k ((k', e) :: calls)
      = if k' = k then e :: eventsSeenBy k calls else eventsSeenBy k calls := by
  rw [eventsSeenBy, List.filterMap_cons]
  by_cases h : k' = k <;> simp [h, eventsSeenBy]

/-- An unregistered key observes nothing. -/
theorem eventsSeenBy_dispatch_not_mem (ctx : Ctx) (event : NotificationEvent)
    (k : String) (l : List (String × ExtractorVal))
    (h : k ∉ l.map Prod.fst) :
    eventsSeenBy k (dispatch ctx event l).1 = [] := by
  rw [eventsSeenBy, List.filterMap_eq_nil_iff]
  intro c hc
  have hmem := dispatch_calls_key_mem ctx event l c hc
  have hne : c.1 ≠ k := fun he => h (he ▸ hmem)
  simp [hne]

/-- With unique keys, a registered notification extractor observes exactly the
dispatched event, once, per dispatch pass. -/
theorem eventsSeenBy_dispatch (ctx : Ctx) (event : NotificationEvent)
    (k : String) (ne : NotificationExtractor) :
    ∀ l : List (String × ExtractorVal),
      (l.map Prod.fst).Nodup → (k, ExtractorVal.notif ne) ∈ l →
      eventsSeenBy k (dispatch ctx event l).1 = [event]
  | [], _, h => absurd h (List.not_mem_nil _)
  | (k', v') :: rest, hnd, h => by
      rw [List.map_cons, List.nodup_cons] at hnd
      have hnd0 : k' ∉ rest.map Prod.fst ∧ (rest.map Prod.fst).Nodup := hnd
      rcases List.mem_cons.mp h with hhead | htail
      · obtain ⟨hk, hv⟩ := Prod.mk.inj hhead
        subst hk
        subst hv
        rw [dispatch_cons_notif, eventsSeenBy_cons, if_pos rfl,
          eventsSeenBy_dispatch_not_mem ctx event k rest hnd0.1]
      · have hkne : k' ≠ k := by
          intro he
          exact hnd0.1 (by rw [he]; exact List.mem_map.mpr ⟨_, htail, rfl⟩)
        have ih := eventsSeenBy_dispatch ctx event k ne rest hnd0.2 htail
        cases v' with
        | nilExt => simpa [dispatch] using ih
        | base tn => simpa [dispatch] using ih
        | notif ext =>
            rw [dispatch_cons_notif, eventsSeenBy_cons, if_neg hkne]
            exact ih

/-- When every registered extractor fails, one error is collected per call. -/
theorem dispatch_errs_length (ctx : Ctx) (event : NotificationEvent) :
    ∀ l : List (String × ExtractorVal),
      (∀ k ne, (k, ExtractorVal.notif ne) ∈ l →
        (ne.extractNotification ctx event).isSome = true) →
      (dispatch ctx event l).2.length = (dispatch ctx event l).1.length
  | [], _ => rfl
  | (k, v) :: rest, hfail => by
      have hrest : ∀ k' ne', (k', ExtractorVal.notif ne') ∈ rest →
          (ne'.extractNotification ctx event).isSome = true :=
        fun k' ne' h => hfail k' ne' (List.mem_cons_of_mem _ h)
      have ih := dispatch_errs_length ctx event rest hrest
      cases v with
      | nilExt => simpa [dispatch] using ih
      | base tn => simpa [dispatch] using ih
      | notif ext =>
          have hx : (ext.extractNotification ctx event).isSome = true :=
            hfail k ext (List.mem_cons_self _ _)
          cases hx' : ext.extractNotification ctx event with
          | none => rw [hx'] at hx; simp at hx
          | some msg => simp [dispatch, hx', ih]

/-- When every stored value passes the type assertion, no entry is skipped:
one call per entry. -/
theorem dispatch_calls_length (ctx : Ctx) (event : NotificationEvent) :
    ∀ l : List (String × ExtractorVal),
      (∀ kv ∈ l, kv.2.isNotif = true) →
      (dispatch ctx event l).1.length = l.length
  | [], _ => rfl
  | (k, v) :: rest, hinv => by
      have ih := dispatch_calls_length ctx event rest
        (fun kv h => hinv kv (List.mem_cons_of_mem _ h))
      cases v with
      | nilExt => exact absurd (hinv (k, ExtractorVal.nilExt) (List.mem_cons_self _ _)) (by simp [ExtractorVal.isNotif])
      | base tn => exact absurd (hinv (k, ExtractorVal.base tn) (List.mem_cons_self _ _)) (by simp [ExtractorVal.isNotif])
      | notif ext =>
          cases hx : ext.extractNotification ctx event <;> simp [dispatch, hx, ih]

/-- When every stored value passes the type assertion, `Extractors` counts
every entry. -/
theorem extractorNames_length :
    ∀ l : List (String × ExtractorVal),
      (∀ kv ∈ l, kv.2.isNotif = true) →
      (extractorNames l).length = l.length
  | [], _ => rfl
  | (k, v) :: rest, hinv => by
      have ih := extractorNames_length rest
        (fun kv h => hinv kv (List.mem_cons_of_mem _ h))
      cases v with
      | nilExt => exact absurd (hinv (k, ExtractorVal.nilExt) (List.mem_cons_self _ _)) (by simp [ExtractorVal.isNotif])
      | base tn => exact absurd (hinv (k, ExtractorVal.base tn) (List.mem_cons_self _ _)) (by simp [ExtractorVal.isNotif])
      | notif ext => simp [extractorNames, ih]

/-- `containsKey` distributes over appending maps. -/
theorem containsKey_append (k : String) :
    ∀ l1 l2 : List (String × ExtractorVal),
      containsKey k (l1 ++ l2) = (containsKey k l1 || containsKey k l2)
  | [], _ => by simp [containsKey]
  | kv :: rest, l2 => by
      simp [containsKey, containsKey_append k rest l2, Bool.or_assoc]

/-- `containsKey` decides key membership. -/
theorem containsKey_eq_false_iff (k : String) :
    ∀ l : List (String × ExtractorVal),
      containsKey k l = false ↔ k ∉ l.map Prod.fst
  | [] => by simp [containsKey]
  | (k', v) :: rest => by
      rw [containsKey, Bool.or_eq_false_iff, List.map_cons, List.mem_cons, not_or,
        containsKey_eq_false_iff k rest, beq_eq_false_iff_ne, ne_comm]

/-- The reachable-state invariant: every stored value implements
`NotificationExtractor` and map keys are unique. -/
def wellFormed (s : K8sNotificationSource) : Prop :=
  (∀ kv ∈ s.extractors, kv.2.isNotif = true) ∧ (s.extractors.map Prod.fst).Nodup

/-- A fresh source is well formed. -/
theorem wellFormed_new (pt pn : String) (g : GroupVersionKind) :
    wellFormed (NewK8sNotificationSource pt pn g) := by
  constructor
  · intro kv h
    simp [NewK8sNotificationSource] at h
  · simp [NewK8sNotificationSource]

/-- When the key is fresh, `AddExtractor` appends the entry under the
extractor's name. -/
theorem addExtractor_fresh_shape (s : K8sNotificationSource)
    (ne : NotificationExtractor)
    (hk : containsKey ne.typedName.name s.extractors = false) :
    (s.AddExtractor (ExtractorVal.notif ne)).1.extractors
      = s.extractors ++ [(ne.typedName.name, ExtractorVal.notif ne)] := by
  simp [K8sNotificationSource.AddExtractor, hk]

/-- When the key is taken, `AddExtractor` errors and leaves the source intact. -/
theorem addExtractor_dup_shape (s : K8sNotificationSource)
    (ne : NotificationExtractor)
    (hk : containsKey ne.typedName.name s.extractors = true) :
    s.AddExtractor (ExtractorVal.notif ne)
      = (s, some (AddError.duplicate ne.typedName s.typedName)) := by
  simp [K8sNotificationSource.AddExtractor, hk]

/-- `AddExtractor` preserves the invariant. -/
theorem wellFormed_addExtractor (s : K8sNotificationSource) (ext : ExtractorVal)
    (hwf : wellFormed s) : wellFormed (s.AddExtractor ext).1 := by
  cases ext with
  | nilExt => exact hwf
  | base tn => exact hwf
  | notif ne =>
      by_cases hk : containsKey ne.typedName.name s.extractors = true
      · rw [addExtractor_dup_shape s ne hk]
        exact hwf
      · have hk' : containsKey ne.typedName.name s.extractors = false := by
          simpa using hk
        have hnot := (containsKey_eq_false_iff _ _).mp hk'
        have hshape := addExtractor_fresh_shape s ne hk'
        constructor
        · intro kv hkv
          rw [hshape] at hkv
          rcases List.mem_append.mp hkv with h1 | h2
          · exact hwf.1 kv h1
          · have heq : kv = (ne.typedName.name, ExtractorVal.notif ne) := by
              simpa using h2
            subst heq
            rfl
        · rw [hshape, List.map_append, List.nodup_append]
          refine ⟨hwf.2, by simp, ?_⟩
          intro a ha hmem
          have ha' : a = ne.typedName.name := by simpa using hmem
          exact hnot (ha' ▸ ha)

/-- Any sequence of operations on a fresh source yields a well-formed source. -/
theorem wellFormed_runOps (s : K8sNotificationSource) (hwf : wellFormed s) :
    ∀ ops : List Op, wellFormed (runOps s ops)
  | [] => hwf
  | Op.add ext :: rest =>
      wellFormed_runOps (s.AddExtractor ext).1 (wellFormed_addExtractor s ext hwf) rest
  | Op.notify _ _ :: rest => wellFormed_runOps s hwf rest
  | Op.collect _ _ :: rest => wellFormed_runOps s hwf rest

/-- `eventsSeenBy` distributes over trace concatenation. -/
theorem eventsSeenBy_append (k : String)
    (c1 c2 : List (String × NotificationEvent)) :
    eventsSeenBy k (c1 ++ c2) = eventsSeenBy k c1 ++ eventsSeenBy k c2 := by
  simp [eventsSeenBy, List.filterMap_append]

/-- With unique keys, a registered notification extractor observes exactly the
delivered event in one `Notify` call. -/
theorem eventsSeenBy_notify (s : K8sNotificationSource) (ctx : Ctx)
    (event : NotificationEvent) (k : String) (ne : NotificationExtractor)
    (hnd : (s.extractors.map Prod.fst).Nodup)
    (h : (k, ExtractorVal.notif ne) ∈ s.extractors) :
    eventsSeenBy k (s.Notify ctx event).calls = [event] :=
  eventsSeenBy_dispatch ctx event k ne s.extractors hnd h

/-! ### Concrete data used by the witnesses -/

/-- A sample watched kind. -/
def gvkPod : GroupVersionKind := { group := "", version := "v1", kind := "Pod" }

/-- A sample extractor whose `ExtractNotification` always returns an error. -/
def extFail : NotificationExtractor :=
  { typedName := { type := "track", name := "alpha" }
    extractNotification := fun _ _ => some "boom" }

/-- A second sample extractor that always fails. -/
def extFail2 : NotificationExtractor :=
  { typedName := { type := "track", name := "gamma" }
    extractNotification := fun _ _ => some "bad event" }

/-- A sample extractor that always succeeds. -/
def extOk : NotificationExtractor :=
  { typedName := { type := "track", name := "beta" }
    extractNotification := fun _ _ => none }

/-- A source with one failing and one succeeding extractor registered. -/
def srcAB : K8sNotificationSource :=
  { typedName := { type := "k8s-notification", name := "pods" }
    gvk := gvkPod
    extractors := [("alpha", ExtractorVal.notif extFail),
                   ("beta", ExtractorVal.notif extOk)] }

/-- A source on which every registered extractor fails. -/
def srcFailAll : K8sNotificationSource :=
  { typedName := { type := "k8s-notification", name := "pods" }
    gvk := gvkPod
    extractors := [("alpha", ExtractorVal.notif extFail),
                   ("gamma", ExtractorVal.notif extFail2)] }

/-- A sample add-or-update event. -/
def ev1 : NotificationEvent :=
  { type := EventType.EventAddOrUpdate, object := some { content := [("id", "pod-1")] } }

/-- A sample delete event carrying the last observed state. -/
def ev2 : NotificationEvent :=
  { type := EventType.EventDelete, object := some { content := [("id", "pod-1")] } }

/-- A live context. -/
def ctx0 : Ctx := { cancelled := false }

/-- An already-cancelled context. -/
def ctxCancelled : Ctx := { cancelled := true }

/-! ### Claim theorems -/

/-- Claim C1: for every set of registered extractors and every event, `Notify` invokes
`ExtractNotification` on every registered extractor — the statement quantifies
over all extractor behaviours, so it holds in particular when one or more of
the invoked extractors return an error: an error from extractor A never
prevents extractor B, registered on the same source, from receiving the same
event. -/
theorem notify_delivers_to_every_registered_extractor
    (s : K8sNotificationSource) (ctx : Ctx) (event : NotificationEvent)
    (k : String) (ne : NotificationExtractor)
    (h : (k, ExtractorVal.notif ne) ∈ s.extractors) :
    (k, event) ∈ (s.Notify ctx event).calls :=
  mem_dispatch_calls ctx event s.extractors k ne h

/-- Witness for C1: on a source whose first extractor always errors, the second
extractor still receives the event. -/
theorem notify_delivers_to_every_registered_extractor_witness :
    ("beta", ev1) ∈ (srcAB.Notify ctx0 ev1).calls :=
  notify_delivers_to_every_registered_extractor srcAB ctx0 ev1 "beta" extOk
    (List.mem_cons_of_mem _ (List.mem_cons_self _ _))

/-- Claim C2: for every sequence of events passed to `Notify` in order, every
registered extractor observes `ExtractNotification` calls for exactly those
events in exactly that order — no reordering, no batching, no deduplication
(the event list may contain the same object twice and is delivered both
times). -/
theorem notify_preserves_arrival_order
    (s : K8sNotificationSource) (ctx : Ctx) (events : List NotificationEvent)
    (k : String) (ne : NotificationExtractor)
    (hnd : (s.extractors.map Prod.fst).Nodup)
    (h : (k, ExtractorVal.notif ne) ∈ s.extractors) :
    eventsSeenBy k (notifySeq s ctx events) = events := by
  induction events with
  | nil => rfl
  | cons e rest ih =>
      rw [notifySeq, eventsSeenBy_append,
        eventsSeenBy_notify s ctx e k ne hnd h, ih]
      rfl

/-- Witness for C2: the same object delivered twice (a resync) is handed to the
extractor both times, in arrival order. -/
theorem notify_preserves_arrival_order_witness :
    eventsSeenBy "beta" (notifySeq srcAB ctx0 [ev1, ev2, ev1]) = [ev1, ev2, ev1] :=
  notify_preserves_arrival_order srcAB ctx0 [ev1, ev2, ev1] "beta" extOk
    (by decide) (List.mem_cons_of_mem _ (List.mem_cons_self _ _))

/-- Claim C3: `Notify` has no return channel to its caller (its embedding returns
only the effect record `NotifyResult`); even when every registered extractor
fails, the extractor errors are collected — one per invocation — into an
aggregate that is handed to the logging sink, and nothing is propagated past
the source boundary. -/
theorem notify_errors_terminal_at_log
    (s : K8sNotificationSource) (ctx : Ctx) (event : NotificationEvent)
    (hsome : ∃ k ne, (k, ExtractorVal.notif ne) ∈ s.extractors)
    (hfail : ∀ k ne, (k, ExtractorVal.notif ne) ∈ s.extractors →
      (ne.extractNotification ctx event).isSome = true) :
    (s.Notify ctx event).errs ≠ [] ∧
    (s.Notify ctx event).logged = some ((s.Notify ctx event).errs) ∧
    (s.Notify ctx event).errs.length = (s.Notify ctx event).calls.length := by
  obtain ⟨k, ne, hmem⟩ := hsome
  have hlen : (dispatch ctx event s.extractors).2.length
      = (dispatch ctx event s.extractors).1.length :=
    dispatch_errs_length ctx event s.extractors hfail
  have hcall : (k, event) ∈ (dispatch ctx event s.extractors).1 :=
    mem_dispatch_calls ctx event s.extractors k ne hmem
  have hcalls_ne : (dispatch ctx event s.extractors).1 ≠ [] := by
    intro hnil
    rw [hnil] at hcall
    exact List.not_mem_nil _ hcall
  have herrs_ne : (dispatch ctx event s.extractors).2 ≠ [] := by
    intro hnil
    apply hcalls_ne
    apply List.eq_nil_of_length_eq_zero
    rw [← hlen, hnil]
    rfl
  refine ⟨herrs_ne, ?_, hlen⟩
  show (if (dispatch ctx event s.extractors).2.length > 0
      then some ((dispatch ctx event s.extractors).2) else none)
    = some ((dispatch ctx event s.extractors).2)
  rw [if_pos (List.length_pos.mpr herrs_ne)]

/-- Witness for C3: on a source where both registered extractors fail, the two
errors are logged as an aggregate and counted one per invocation. -/
theorem notify_errors_terminal_at_log_witness :
    (srcFailAll.Notify ctx0 ev1).logged = some ((srcFailAll.Notify ctx0 ev1).errs) ∧
    (srcFailAll.Notify ctx0 ev1).errs ≠ [] := by
  have h := notify_errors_terminal_at_log srcFailAll ctx0 ev1
    ⟨"alpha", extFail, List.mem_cons_self _ _⟩
    (by
      intro k ne h
      rcases List.mem_cons.mp h with h1 | h2
      · rw [ExtractorVal.notif.inj (Prod.mk.inj h1).2]
        rfl
      · rcases List.mem_cons.mp h2 with h3 | h4
        · rw [ExtractorVal.notif.inj (Prod.mk.inj h3).2]
          rfl
        · exact absurd h4 (List.not_mem_nil _))
  exact ⟨h.2.1, h.1⟩

/-- The registration succeeds exactly when the extractor's name is not yet a key. -/
theorem addExtractor_err_eq_none_iff (s : K8sNotificationSource)
    (ne : NotificationExtractor) :
    (s.AddExtractor (ExtractorVal.notif ne)).2 = none
      ↔ containsKey ne.typedName.name s.extractors = false := by
  by_cases hk : containsKey ne.typedName.name s.extractors = true
  · simp [K8sNotificationSource.AddExtractor, hk]
  · have hk' : containsKey ne.typedName.name s.extractors = false := by simpa using hk
    simp [K8sNotificationSource.AddExtractor, hk']

/-- Claim C4: `AddExtractor` returns an error exactly on a nil argument
(invalid-argument), an argument lacking the `NotificationExtractor` capability
(capability-mismatch), or a name collision (duplicate-registration); every
error case leaves the extractor set unchanged (the first registration wins),
and the success case stores the extractor under its name. -/
theorem addExtractor_error_conditions
    (s : K8sNotificationSource) (ext : ExtractorVal) :
    ((s.AddExtractor ext).2.isSome = true ↔
      (ext = ExtractorVal.nilExt
        ∨ (∃ tn, ext = ExtractorVal.base tn)
        ∨ (∃ ne, ext = ExtractorVal.notif ne ∧
            containsKey ne.typedName.name s.extractors = true)))
    ∧ (ext = ExtractorVal.nilExt →
        (s.AddExtractor ext).2 = some AddError.nilExtractor)
    ∧ (∀ tn, ext = ExtractorVal.base tn →
        (s.AddExtractor ext).2 = some (AddError.capabilityMismatch tn))
    ∧ (∀ ne, ext = ExtractorVal.notif ne →
        containsKey ne.typedName.name s.extractors = true →
        (s.AddExtractor ext).2 = some (AddError.duplicate ne.typedName s.typedName))
    ∧ ((s.AddExtractor ext).2.isSome = true → (s.AddExtractor ext).1 = s)
    ∧ (∀ ne, ext = ExtractorVal.notif ne → (s.AddExtractor ext).2 = none →
        (s.AddExtractor ext).1.extractors
          = s.extractors ++ [(ne.typedName.name, ExtractorVal.notif ne)]) := by
  cases ext with
  | nilExt => simp [K8sNotificationSource.AddExtractor]
  | base tn => simp [K8sNotificationSource.AddExtractor]
  | notif ne =>
      by_cases hk : containsKey ne.typedName.name s.extractors = true
      · simp [K8sNotificationSource.AddExtractor, hk]
      · have hk' : containsKey ne.typedName.name s.extractors = false := by simpa using hk
        simp [K8sNotificationSource.AddExtractor, hk']

/-- Witness for C4: a plugin with only the base capability is rejected with a
capability-mismatch error. -/
theorem addExtractor_error_conditions_witness :
    ((NewK8sNotificationSource "t" "n" gvkPod).AddExtractor
        (ExtractorVal.base { type := "plain", name := "p" })).2
      = some (AddError.capabilityMismatch { type := "plain", name := "p" }) :=
  (addExtractor_error_conditions (NewK8sNotificationSource "t" "n" gvkPod)
      (ExtractorVal.base { type := "plain", name := "p" })).2.2.1
    { type := "plain", name := "p" } rfl

/-- Counterexample for C5: two extractors whose TypedNames differ (equal Name,
different Type) do NOT both register on one source — the second attempt fails
with a duplicate-registration error, because the map key is the bare Name. -/
theorem typedName_not_uniqueness_key_counterexample :
    ({ type := "A", name := "same" } : TypedName) ≠ { type := "B", name := "same" } ∧
    (((NewK8sNotificationSource "t" "n" gvkPod).AddExtractor
        (ExtractorVal.notif { typedName := { type := "A", name := "same" }
                              extractNotification := fun _ _ => none })).1.AddExtractor
        (ExtractorVal.notif { typedName := { type := "B", name := "same" }
                              extractNotification := fun _ _ => none })).2
      = some (AddError.duplicate { type := "B", name := "same" }
              { type := "t", name := "n" }) :=
  ⟨by decide, rfl⟩

/-- Claim C5 as amended: the `Name` field alone is the uniqueness key within a single
source's extractor set: after one successful registration, a second
registration succeeds exactly when its `Name` differs from the first one's
`Name` (regardless of `Type`) and from every other registered name. -/
theorem name_alone_is_uniqueness_key
    (s : K8sNotificationSource) (ne1 ne2 : NotificationExtractor)
    (h1 : containsKey ne1.typedName.name s.extractors = false) :
    ((s.AddExtractor (ExtractorVal.notif ne1)).1.AddExtractor
        (ExtractorVal.notif ne2)).2 = none
      ↔ (ne1.typedName.name ≠ ne2.typedName.name ∧
          containsKey ne2.typedName.name s.extractors = false) := by
  rw [addExtractor_err_eq_none_iff, addExtractor_fresh_shape s ne1 h1,
    containsKey_append]
  simp [containsKey, Bool.or_eq_false_iff, beq_eq_false_iff_ne, and_comm]

/-- Witness for C5 amended: two extractors with distinct Names both register. -/
theorem name_alone_is_uniqueness_key_witness :
    (((NewK8sNotificationSource "t" "n" gvkPod).AddExtractor
        (ExtractorVal.notif extOk)).1.AddExtractor
        (ExtractorVal.notif extFail)).2 = none :=
  (name_alone_is_uniqueness_key (NewK8sNotificationSource "t" "n" gvkPod)
      extOk extFail rfl).mpr ⟨by decide, rfl⟩

/-- Counterexample for C6: the capability-mismatch error is identical for two
sources with different TypedNames, so it cannot name the owning source; its
rendered message mentions only the offending plugin. -/
theorem capability_error_omits_source_counterexample :
    ((NewK8sNotificationSource "srcT" "srcA" gvkPod).AddExtractor
        (ExtractorVal.base { type := "plug", name := "p1" })).2
      = ((NewK8sNotificationSource "otherT" "otherB" gvkPod).AddExtractor
        (ExtractorVal.base { type := "plug", name := "p1" })).2 ∧
    (NewK8sNotificationSource "srcT" "srcA" gvkPod).typedName
      ≠ (NewK8sNotificationSource "otherT" "otherB" gvkPod).typedName ∧
    (((NewK8sNotificationSource "srcT" "srcA" gvkPod).AddExtractor
        (ExtractorVal.base { type := "plug", name := "p1" })).2.map AddError.render)
      = some "extractor plug/p1 does not implement NotificationExtractor" :=
  ⟨rfl, by decide, rfl⟩

/-- Claim C6 as amended: the capability-mismatch error names the offending plugin's
TypedName only; the owning source's TypedName appears in the
duplicate-registration error, which names both. -/
theorem capability_error_names_plugin_only
    (s : K8sNotificationSource) (tn : TypedName) (ne : NotificationExtractor)
    (hdup : containsKey ne.typedName.name s.extractors = true) :
    (s.AddExtractor (ExtractorVal.base tn)).2
      = some (AddError.capabilityMismatch tn) ∧
    AddError.render (AddError.capabilityMismatch tn)
      = "extractor " ++ tn.render ++ " does not implement NotificationExtractor" ∧
    (s.AddExtractor (ExtractorVal.notif ne)).2
      = some (AddError.duplicate ne.typedName s.typedName) ∧
    AddError.render (AddError.duplicate ne.typedName s.typedName)
      = "duplicate extractor " ++ ne.typedName.render
        ++ " on notification source " ++ s.typedName.render := by
  refine ⟨rfl, rfl, ?_, rfl⟩
  exact congrArg Prod.snd (addExtractor_dup_shape s ne hdup)

/-- Witness for C6 amended: concrete capability-mismatch and duplicate errors. -/
theorem capability_error_names_plugin_only_witness :
    (srcAB.AddExtractor (ExtractorVal.base { type := "plain", name := "p" })).2
      = some (AddError.capabilityMismatch { type := "plain", name := "p" }) ∧
    (srcAB.AddExtractor (ExtractorVal.notif extFail)).2
      = some (AddError.duplicate extFail.typedName srcAB.typedName) := by
  have h := capability_error_names_plugin_only srcAB
    { type := "plain", name := "p" } extFail rfl
  exact ⟨h.1, h.2.2.1⟩

/-- Claim C7: the dispatch loop never aborts mid-fan-out on a cancelled context: the
invocation trace is identical for every context — in particular an
already-cancelled one — and every registered extractor is still invoked; the
context is merely forwarded to the plugins. -/
theorem notify_dispatch_ignores_cancellation
    (s : K8sNotificationSource) (event : NotificationEvent) (ctx ctx' : Ctx) :
    (s.Notify ctx event).calls = (s.Notify ctx' event).calls ∧
    (∀ k ne, (k, ExtractorVal.notif ne) ∈ s.extractors →
      (k, event) ∈ (s.Notify ctx event).calls) := by
  constructor
  · have e1 : (s.Notify ctx event).calls = (dispatch ctx event s.extractors).1 := rfl
    have e2 : (s.Notify ctx' event).calls = (dispatch ctx' event s.extractors).1 := rfl
    rw [e1, e2, dispatch_calls, dispatch_calls]
  · exact fun k ne h => mem_dispatch_calls ctx event s.extractors k ne h

/-- Witness for C7: an already-cancelled context yields the same invocation
trace as a live one, and the registered extractor is still invoked. -/
theorem notify_dispatch_ignores_cancellation_witness :
    (srcAB.Notify ctxCancelled ev1).calls = (srcAB.Notify ctx0 ev1).calls ∧
    ("alpha", ev1) ∈ (srcAB.Notify ctxCancelled ev1).calls := by
  have h := notify_dispatch_ignores_cancellation srcAB ev1 ctxCancelled ctx0
  exact ⟨h.1, h.2 "alpha" extFail (List.mem_cons_self _ _)⟩

/-- Claim C8: `Collect` returns no error and leaves the source's TypedName, GVK and
extractor set unchanged — notification sources are exclusively event-driven. -/
theorem collect_noop (s : K8sNotificationSource) (ctx : Ctx) (target : Endpoint) :
    (s.Collect ctx target).2 = none ∧
    (s.Collect ctx target).1.typedName = s.typedName ∧
    (s.Collect ctx target).1.gvk = s.gvk ∧
    (s.Collect ctx target).1.extractors = s.extractors :=
  ⟨rfl, rfl, rfl, rfl⟩

/-- Claim C9: after any sequence of `AddExtractor`, `Notify` and `Collect` operations
on a freshly constructed source, every value stored in the extractor map
implements `NotificationExtractor`, so the defensive type-assertion guards in
`Notify` and `Extractors` never skip a registered entry: one invocation and one
listed name per stored entry. -/
theorem stored_values_always_notification_extractors
    (pt pn : String) (g : GroupVersionKind) (ops : List Op)
    (ctx : Ctx) (event : NotificationEvent) :
    (∀ kv ∈ (runOps (NewK8sNotificationSource pt pn g) ops).extractors,
        kv.2.isNotif = true) ∧
    ((runOps (NewK8sNotificationSource pt pn g) ops).Notify ctx event).calls.length
      = (runOps (NewK8sNotificationSource pt pn g) ops).extractors.length ∧
    ((runOps (NewK8sNotificationSource pt pn g) ops).Extractors).length
      = (runOps (NewK8sNotificationSource pt pn g) ops).extractors.length := by
  have hwf := wellFormed_runOps (NewK8sNotificationSource pt pn g)
    (wellFormed_new pt pn g) ops
  exact ⟨hwf.1,
    dispatch_calls_length ctx event _ hwf.1,
    extractorNames_length _ hwf.1⟩

/-- A sample operation sequence mixing successful registrations, rejected
registrations, notifications and collects. -/
def ops0 : List Op :=
  [Op.add (ExtractorVal.notif extFail),
   Op.add ExtractorVal.nilExt,
   Op.add (ExtractorVal.base { type := "plain", name := "p" }),
   Op.notify ctx0 ev1,
   Op.collect ctx0 { id := "pod-1" },
   Op.add (ExtractorVal.notif extOk)]

/-- Witness for C9: on a concretely built source, no stored entry is skipped by
`Notify` or `Extractors`. -/
theorem stored_values_always_notification_extractors_witness :
    ((runOps (NewK8sNotificationSource "t" "n" gvkPod) ops0).Notify ctx0 ev1).calls.length
      = (runOps (NewK8sNotificationSource "t" "n" gvkPod) ops0).extractors.length ∧
    ((runOps (NewK8sNotificationSource "t" "n" gvkPod) ops0).Extractors).length
      = (runOps (NewK8sNotificationSource "t" "n" gvkPod) ops0).extractors.length := by
  have h := stored_values_always_notification_extractors "t" "n" gvkPod ops0 ctx0 ev1
  exact ⟨h.2.1, h.2.2⟩

/-- Registers a list of extractors in order, threading the source state. -/
def addAll (s : K8sNotificationSource) :
    List NotificationExtractor → K8sNotificationSource
  | [] => s
  | ne :: rest => addAll (s.AddExtractor (ExtractorVal.notif ne)).1 rest

/-- True when every registration in the sequence succeeds. -/
def addAllOk (s : K8sNotificationSource) : List NotificationExtractor → Bool
  | [] => true
  | ne :: rest =>
      (s.AddExtractor (ExtractorVal.notif ne)).2.isNone
        && addAllOk (s.AddExtractor (ExtractorVal.notif ne)).1 rest

/-- A successful registration sequence appends one entry per extractor, keyed
by its bare name. -/
theorem addAll_extractors :
    ∀ (xs : List NotificationExtractor) (s : K8sNotificationSource),
      addAllOk s xs = true →
      (addAll s xs).extractors
        = s.extractors ++ xs.map (fun x => (x.typedName.name, ExtractorVal.notif x))
  | [], s, _ => by simp [addAll]
  | x :: rest, s, hok => by
      rw [addAllOk, Bool.and_eq_true] at hok
      have hnone : (s.AddExtractor (ExtractorVal.notif x)).2 = none :=
        Option.isNone_iff_eq_none.mp hok.1
      have hk := (addExtractor_err_eq_none_iff s x).mp hnone
      rw [addAll, addAll_extractors rest _ hok.2, addExtractor_fresh_shape s x hk,
        List.map_cons, List.append_assoc]
      rfl

/-- `extractorNames` over entries built from notification extractors yields the
full TypedName renderings. -/
theorem extractorNames_entries :
    ∀ xs : List NotificationExtractor,
      extractorNames (xs.map (fun x => (x.typedName.name, ExtractorVal.notif x)))
        = xs.map (fun x => x.typedName.render)
  | [] => rfl
  | x :: rest => by simp [extractorNames, extractorNames_entries rest]

/-- Claim C10: `Extractors()` on a freshly constructed source returns the empty list;
after k successful `AddExtractor` calls it returns exactly k entries, each the
full "Type/Name" rendering (`TypedName.String`) of a registered extractor —
not the bare Name string that `AddExtractor` uses as the registration key. -/
theorem extractors_lists_full_renderings
    (pt pn : String) (g : GroupVersionKind) (xs : List NotificationExtractor)
    (hok : addAllOk (NewK8sNotificationSource pt pn g) xs = true) :
    (NewK8sNotificationSource pt pn g).Extractors = [] ∧
    (addAll (NewK8sNotificationSource pt pn g) xs).Extractors
      = xs.map (fun x => x.typedName.render) ∧
    (addAll (NewK8sNotificationSource pt pn g) xs).Extractors.length = xs.length := by
  have hsh := addAll_extractors xs (NewK8sNotificationSource pt pn g) hok
  have hext : (addAll (NewK8sNotificationSource pt pn g) xs).Extractors
      = xs.map (fun x => x.typedName.render) := by
    show extractorNames (addAll (NewK8sNotificationSource pt pn g) xs).extractors = _
    rw [hsh]
    show extractorNames ([] ++ xs.map (fun x => (x.typedName.name, ExtractorVal.notif x))) = _
    rw [List.nil_append, extractorNames_entries]
  exact ⟨rfl, hext, by rw [hext, List.length_map]⟩

/-- Witness for C10: two successful registrations are listed as the two full
"Type/Name" renderings, which differ from the bare registration keys. -/
theorem extractors_lists_full_renderings_witness :
    (addAll (NewK8sNotificationSource "t" "n" gvkPod) [extFail, extOk]).Extractors
      = ["track/alpha", "track/beta"] := by
  have h := extractors_lists_full_renderings "t" "n" gvkPod [extFail, extOk] (by rfl)
  rw [h.2.1]
  rfl

end GAIE
